import Mathlib

/-!
Shallow embedding of the game-theoretic decision engine of the
response-bot repository (`src/game_theory.py`, class `GameTheoryEngine`).

Python dictionaries are modelled as association lists (`List (String × α)`)
with insertion-order semantics: `dictLookup` is `d.get(k)`, `dictSet` is
`d[k] = v` (update in place if the key exists, else append), and
`dictSetdefault` is `d.setdefault(k, v)`.  Python floats are modelled as
exact rationals (`ℚ`) in the state-update layer and as reals (`ℝ`) in the
softmax / mixed-strategy layer, where `math.exp` becomes `Real.exp`.
-/

namespace ResponseBot

/-- `d.get(k)` on a Python dict: first binding of `k`, if any. -/
def dictLookup {α : Type} : List (String × α) → String → Option α
  | [], _ => none
  | (k', v) :: rest, k => if k' = k then some v else dictLookup rest k

/-- `d[k] = v` on a Python dict: overwrite in place, else append. -/
def dictSet {α : Type} : List (String × α) → String → α → List (String × α)
  | [], k, v => [(k, v)]
  | (k', v') :: rest, k, v =>
      if k' = k then (k', v) :: rest else (k', v') :: dictSet rest k v

/-- `d.setdefault(k, v)`: insert `v` under `k` only when `k` is absent. -/
def dictSetdefault {α : Type} (d : List (String × α)) (k : String) (v : α) :
    List (String × α) :=
  match dictLookup d k with
  | some _ => d
  | none => d ++ [(k, v)]

/-- The engine's mutable state: the `regret` dict, the `strategy_counts`
dict and the `iterations` counter (`self.state` in `GameTheoryEngine`). -/
structure GameState where
  regret : List (String × ℚ)
  strategyCounts : List (String × ℚ)
  iterations : ℕ
  deriving DecidableEq, Repr

/-- One step of the `for action in self.actions` loop of
`GameTheoryEngine.update_regret`:
`regrets[action] = max(0.0, current + (payoffs.get(action, 0.0) - chosen_payoff))`. -/
def updateRegretStep (payoffs : List (String × ℚ)) (chosenPayoff : ℚ)
    (r : List (String × ℚ)) (a : String) : List (String × ℚ) :=
  dictSet r a (max 0 ((dictLookup r a).getD 0 +
    ((dictLookup payoffs a).getD 0 - chosenPayoff)))

/-- `GameTheoryEngine.update_regret(payoffs, chosen_action)`: fold the regret
update over the configured actions, bump the chosen action's strategy count,
and increment the iteration counter. -/
def updateRegret (actions : List String) (payoffs : List (String × ℚ))
    (chosen : String) (st : GameState) : GameState :=
  let chosenPayoff := (dictLookup payoffs chosen).getD 0
  let newRegret := actions.foldl (updateRegretStep payoffs chosenPayoff) st.regret
  let newCounts := dictSet st.strategyCounts chosen
    ((dictLookup st.strategyCounts chosen).getD 0 + 1)
  { regret := newRegret, strategyCounts := newCounts,
    iterations := st.iterations + 1 }

/-- `GameTheoryEngine.penalize_failure(action)`:
`regrets[action] = max(0.0, regrets.get(action, 0.0) - self.failure_penalty)`. -/
def penalizeFailure (failurePenalty : ℚ) (action : String) (st : GameState) :
    GameState :=
  let newRegret := dictSet st.regret action
    (max 0 ((dictLookup st.regret action).getD 0 - failurePenalty))
  { st with regret := newRegret }

/-- `payoffs.setdefault(k, 0.0)` folded over a key list: the payoff dict
with every listed key that was absent bound to the default payoff `0.0`. -/
def totalizePayoffs (payoffs : List (String × ℚ)) (ks : List String) :
    List (String × ℚ) :=
  ks.foldl (fun d k => dictSetdefault d k 0) payoffs

/-- One call to the engine's public mutating interface.  `select` carries the
optional payoff argument of `select_action`; `baseline` stands for a
`baseline_payoffs` call. -/
inductive EngineCall where
  | update (payoffs : List (String × ℚ)) (chosen : String)
  | penalize (action : String)
  | select (payoffs : Option (List (String × ℚ)))
  | baseline
  deriving Repr

/-- The state transition of a single public call.  `select_action` and
`baseline_payoffs` never write to `self.state` in the source, so their
transition is the identity. -/
def stepCall (actions : List String) (failurePenalty : ℚ) (st : GameState) :
    EngineCall → GameState
  | .update p c => updateRegret actions p c st
  | .penalize a => penalizeFailure failurePenalty a st
  | .select _ => st
  | .baseline => st

/-- The state after a finite sequence of public calls. -/
def runCalls (actions : List String) (failurePenalty : ℚ)
    (calls : List EngineCall) (st : GameState) : GameState :=
  calls.foldl (stepCall actions failurePenalty) st

-- Persistence model: the caller-owned history record.  Its `"game_theory"`
-- key holds the engine's persisted sub-record; any other key holds sibling
-- data of type `σ` (e.g. the bot's replied-tweets log).

/-- The persisted `game_theory` sub-record as read from storage: each of the
three fields may be absent (`game_state.get(..., default)` in the source). -/
structure RawGameState where
  regret : Option (List (String × ℚ))
  strategyCounts : Option (List (String × ℚ))
  iterations : Option ℕ
  deriving DecidableEq, Repr

/-- A value stored in the caller-owned history record. -/
inductive HVal (σ : Type) where
  | game (g : RawGameState)
  | other (s : σ)
  deriving DecidableEq, Repr

/-- The caller-owned history record, a Python dict. -/
abbrev History (σ : Type) : Type := List (String × HVal σ)

/-- Reading the engine's sub-record out of a stored value. -/
def gameOf {σ : Type} : Option (HVal σ) → Option RawGameState
  | some (.game g) => some g
  | _ => none

/-- The sub-record `history.get("game_theory") or {}` with every field
absent. -/
def emptyRaw : RawGameState := ⟨none, none, none⟩

/-- `GameTheoryEngine._load_or_initialize_state`, state part: bootstrap the
loaded sub-record with `regret.setdefault(a, 0.0)`,
`strategy_counts.setdefault(a, 1.0)` for each configured action and
`setdefault("iterations", 0)`. -/
def loadOrInitState (raw : Option RawGameState) (actions : List String) :
    GameState :=
  let gs := raw.getD emptyRaw
  let regret := actions.foldl (fun d a => dictSetdefault d a 0) (gs.regret.getD [])
  let counts := actions.foldl (fun d a => dictSetdefault d a 1)
    (gs.strategyCounts.getD [])
  { regret := regret, strategyCounts := counts,
    iterations := gs.iterations.getD 0 }

/-- The engine's in-memory state as it is written back to the history record
(`history["game_theory"] = self.state`). -/
def rawOfState (st : GameState) : RawGameState :=
  ⟨some st.regret, some st.strategyCounts, some st.iterations⟩

/-- `GameTheoryEngine._persist_state`: re-read the record from the loader
(`history = self._state_loader() or {}`, `loaded = none` modelling a falsy
loader result), overwrite only the engine's namespaced key, and hand the
result to the saver. -/
def persistState {σ : Type} (loaded : Option (History σ)) (st : GameState) :
    History σ :=
  dictSet (loaded.getD []) "game_theory" (HVal.game (rawOfState st))

/-- `GameTheoryEngine._load_or_initialize_state`, full effect: the resulting
in-memory state together with the record handed to the saver. -/
def loadOrInit {σ : Type} (loaded : Option (History σ))
    (actions : List String) : GameState × History σ :=
  let hist := loaded.getD []
  let gs := loadOrInitState (gameOf (dictLookup hist "game_theory")) actions
  (gs, dictSet hist "game_theory" (HVal.game (rawOfState gs)))

/-- The constructor's action handling: `actions or ("reply", "quote")` — a
`None` argument or an empty (falsy) sequence is replaced by the default
action pair. -/
def initActions (actionsArg : Option (List String)) : List String :=
  match actionsArg with
  | none => ["reply", "quote"]
  | some l => if l = [] then ["reply", "quote"] else l

/-- A constructed engine: the configured actions, the tunable constants set
in `__init__` (`1.2`, `0.55`, `0.35`), the loaded-or-bootstrapped state and
the record the constructor asked the saver to persist. -/
structure Engine (σ : Type) where
  actions : List String
  temperature : ℚ
  mixingFactor : ℚ
  failurePenalty : ℚ
  state : GameState
  saved : History σ

/-- `GameTheoryEngine.__init__(state_loader, state_saver, actions)` where the
loader yields `loaded`. -/
def mkEngine {σ : Type} (actionsArg : Option (List String))
    (loaded : Option (History σ)) : Engine σ :=
  let acts := initActions actionsArg
  let res := loadOrInit loaded acts
  { actions := acts, temperature := 6/5, mixingFactor := 11/20,
    failurePenalty := 7/20, state := res.1, saved := res.2 }

-- Strategy layer.  `math.exp` becomes `Real.exp`; the layer is therefore
-- stated over `ℝ`, with the rational state coerced in.

/-- `GameTheoryEngine.baseline_payoffs`: flat `1.0` priors with fixed
offsets for the `reply` and `quote` actions when they are configured. -/
def baselinePayoffs (actions : List String) : List (String × ℚ) :=
  let base0 := actions.map (fun a => (a, (1 : ℚ)))
  let base1 :=
    if (dictLookup base0 "reply").isSome then
      dictSet base0 "reply" ((dictLookup base0 "reply").getD 0 + 1/4)
    else base0
  if (dictLookup base1 "quote").isSome then
    dictSet base1 "quote" ((dictLookup base1 "quote").getD 0 + 1/10)
  else base1

/-- `payoffs or self.baseline_payoffs()`: `None` and the empty (falsy) dict
both fall back to the baseline payoffs. -/
def effectivePayoffs (actions : List String)
    (payoffs : Option (List (String × ℚ))) : List (String × ℚ) :=
  match payoffs with
  | none => baselinePayoffs actions
  | some p => if p = [] then baselinePayoffs actions else p

/-- `GameTheoryEngine._regret_policy`: positive parts of the regrets,
normalized; uniform fallback when their sum is not positive. -/
def regretPolicy (actions : List String) (st : GameState) :
    List (String × ℚ) :=
  let pos : String → ℚ := fun a => max ((dictLookup st.regret a).getD 0) 0
  let total := (actions.map pos).sum
  if total ≤ 0 then actions.map (fun a => (a, 1 / (actions.length : ℚ)))
  else actions.map (fun a => (a, pos a / total))

open Classical in
/-- `GameTheoryEngine._softmax_policy`: softmax over the payoffs at the given
temperature, subtracting the maximum payoff before exponentiating; a zero
(falsy) total falls back to `1.0`. -/
noncomputable def softmaxPolicy (actions : List String) (temperature : ℝ)
    (payoffs : List (String × ℚ)) : List (String × ℝ) :=
  let values : List ℚ := actions.map (fun a => (dictLookup payoffs a).getD 0)
  let maxVal : ℚ := match values with | [] => 0 | v :: vs => vs.foldl max v
  let expv : String → ℝ := fun a =>
    Real.exp ((((dictLookup payoffs a).getD 0 - maxVal : ℚ) : ℝ) / temperature)
  let total0 := (actions.map expv).sum
  let total := if total0 = 0 then 1 else total0
  actions.map (fun a => (a, expv a / total))

open Classical in
/-- `GameTheoryEngine._normalize`: divide every weight by the total
(`sum(weights.values()) or 1.0`). -/
noncomputable def normalizeW (weights : List (String × ℝ)) :
    List (String × ℝ) :=
  let total0 := (weights.map Prod.snd).sum
  let total := if total0 = 0 then 1 else total0
  weights.map (fun p => (p.1, p.2 / total))

/-- `GameTheoryEngine.mixed_strategy`: blend the regret policy with the
softmax policy, floor every weight at `1e-6`, and normalize. -/
noncomputable def mixedStrategy (actions : List String)
    (temperature mixingFactor : ℝ) (payoffs : Option (List (String × ℚ)))
    (st : GameState) : List (String × ℝ) :=
  let eff := effectivePayoffs actions payoffs
  let rp := regretPolicy actions st
  let pp := softmaxPolicy actions temperature eff
  let weights := actions.map (fun a =>
    (a, max (mixingFactor * (((dictLookup rp a).getD 0 : ℚ) : ℝ)
      + (1 - mixingFactor) * (dictLookup pp a).getD 0) (1/1000000)))
  normalizeW weights

/-- `GameTheoryEngine.select_action`: compute the mixed distribution and draw
one action from it; `pick` stands for `random.choices`.  The engine state is
not touched. -/
noncomputable def selectAction (actions : List String)
    (temperature mixingFactor : ℝ) (pick : List (String × ℝ) → String)
    (payoffs : Option (List (String × ℚ))) (st : GameState) :
    String × List (String × ℝ) :=
  let dist := mixedStrategy actions temperature mixingFactor payoffs st
  (pick dist, dist)

-- ==================================================================
-- Lemmas
-- ==================================================================

theorem dictLookup_dictSet_self {α : Type} (d : List (String × α)) (k : String)
    (v : α) : dictLookup (dictSet d k v) k = some v := by
  induction d with
  | nil => simp [dictSet, dictLookup]
  | cons p rest ih =>
      obtain ⟨k', v'⟩ := p
      by_cases h : k' = k
      · simp [dictSet, dictLookup, h]
      · simp [dictSet, dictLookup, h, ih]

theorem dictLookup_dictSet_ne {α : Type} (d : List (String × α)) (k a : String)
    (v : α) (h : a ≠ k) : dictLookup (dictSet d k v) a = dictLookup d a := by
  induction d with
  | nil => simp [dictSet, dictLookup, Ne.symm h]
  | cons p rest ih =>
      obtain ⟨k', v'⟩ := p
      by_cases hk : k' = k
      · subst hk
        simp [dictSet, dictLookup, Ne.symm h]
      · simp [dictSet, dictLookup, hk, ih]

theorem dictLookup_append_of_none {α : Type} (d e : List (String × α))
    (k : String) (h : dictLookup d k = none) :
    dictLookup (d ++ e) k = dictLookup e k := by
  induction d with
  | nil => rfl
  | cons p rest ih =>
      obtain ⟨k', v'⟩ := p
      by_cases hk : k' = k
      · simp [dictLookup, hk] at h
      · simp only [List.cons_append]
        simp only [dictLookup, hk, if_false] at h ⊢
        exact ih h

theorem dictLookup_append_of_some {α : Type} (d e : List (String × α))
    (k : String) (v : α) (h : dictLookup d k = some v) :
    dictLookup (d ++ e) k = some v := by
  induction d with
  | nil => exact Option.noConfusion h
  | cons p rest ih =>
      obtain ⟨k', v'⟩ := p
      by_cases hk : k' = k
      · simp only [List.cons_append]
        simp only [dictLookup, hk, if_true] at h ⊢
        exact h
      · simp only [List.cons_append]
        simp only [dictLookup, hk, if_false] at h ⊢
        exact ih h

theorem dictSetdefault_of_isSome {α : Type} (d : List (String × α))
    (k : String) (v : α) (h : (dictLookup d k).isSome) :
    dictSetdefault d k v = d := by
  unfold dictSetdefault
  cases hd : dictLookup d k with
  | some w => rfl
  | none => rw [hd] at h; simp at h

theorem dictLookup_dictSetdefault_self {α : Type} (d : List (String × α))
    (k : String) (v : α) :
    dictLookup (dictSetdefault d k v) k = some ((dictLookup d k).getD v) := by
  unfold dictSetdefault
  cases hd : dictLookup d k with
  | some w => simp [hd]
  | none =>
      rw [dictLookup_append_of_none d _ k hd]
      simp [dictLookup]

theorem dictLookup_dictSetdefault_ne {α : Type} (d : List (String × α))
    (k a : String) (v : α) (h : a ≠ k) :
    dictLookup (dictSetdefault d k v) a = dictLookup d a := by
  unfold dictSetdefault
  cases hd : dictLookup d k with
  | some w => rfl
  | none =>
      cases ha : dictLookup d a with
      | some w => exact dictLookup_append_of_some d _ a w ha
      | none =>
          have h1 : dictLookup (d ++ [(k, v)]) a = dictLookup [(k, v)] a :=
            dictLookup_append_of_none d _ a ha
          have h2 : dictLookup [(k, v)] a = none := by
            simp [dictLookup, Ne.symm h]
          rw [h1, h2]

theorem foldl_hcongr {α β : Type} (f g : α → β → α) (l : List β) (init : α)
    (h : ∀ acc b, b ∈ l → f acc b = g acc b) :
    l.foldl f init = l.foldl g init := by
  induction l generalizing init with
  | nil => rfl
  | cons b rest ih =>
      rw [List.foldl_cons, List.foldl_cons, h init b (List.mem_cons_self _ _)]
      exact ih _ fun acc b' hb' => h acc b' (List.mem_cons_of_mem _ hb')

-- Lemmas about the regret-update fold.

theorem dictLookup_foldl_updateRegretStep_notMem (payoffs : List (String × ℚ))
    (cp : ℚ) (as : List String) (r : List (String × ℚ)) (a : String)
    (h : a ∉ as) :
    dictLookup (as.foldl (updateRegretStep payoffs cp) r) a = dictLookup r a := by
  induction as generalizing r with
  | nil => rfl
  | cons k rest ih =>
      have hk : a ≠ k := fun e => h (e ▸ List.mem_cons_self k rest)
      have hrest : a ∉ rest := fun e => h (List.mem_cons_of_mem k e)
      rw [List.foldl_cons, ih _ hrest, updateRegretStep,
        dictLookup_dictSet_ne _ _ _ _ hk]

theorem dictLookup_foldl_updateRegretStep (payoffs : List (String × ℚ))
    (cp : ℚ) (as : List String) (r : List (String × ℚ)) (a : String)
    (hnd : as.Nodup) (ha : a ∈ as) :
    dictLookup (as.foldl (updateRegretStep payoffs cp) r) a =
      some (max 0 ((dictLookup r a).getD 0 +
        ((dictLookup payoffs a).getD 0 - cp))) := by
  induction as generalizing r with
  | nil => cases ha
  | cons k rest ih =>
      rcases List.mem_cons.mp ha with h1 | h2
      · subst h1
        have hrest : a ∉ rest := (List.nodup_cons.mp hnd).1
        rw [List.foldl_cons,
          dictLookup_foldl_updateRegretStep_notMem payoffs cp rest _ a hrest,
          updateRegretStep, dictLookup_dictSet_self]
      · have hk : a ≠ k := by
          intro e
          exact (List.nodup_cons.mp hnd).1 (e ▸ h2)
        rw [List.foldl_cons, ih _ (List.nodup_cons.mp hnd).2 h2,
          updateRegretStep, dictLookup_dictSet_ne _ _ _ _ hk]

-- Non-negativity is preserved by the dictionary operations the engine uses.

theorem nonneg_dictSet (d : List (String × ℚ)) (k : String) (v : ℚ)
    (hd : ∀ p ∈ d, 0 ≤ p.2) (hv : 0 ≤ v) :
    ∀ p ∈ dictSet d k v, 0 ≤ p.2 := by
  induction d with
  | nil =>
      intro p hp
      simp [dictSet] at hp
      simp [hp, hv]
  | cons q rest ih =>
      obtain ⟨k', v'⟩ := q
      intro p hp
      by_cases hk : k' = k
      · simp only [dictSet, hk, if_true] at hp
        rcases List.mem_cons.mp hp with h1 | h1
        · simp [h1, hv]
        · exact hd p (List.mem_cons_of_mem _ h1)
      · simp only [dictSet, hk, if_false] at hp
        rcases List.mem_cons.mp hp with h1 | h1
        · exact h1 ▸ hd (k', v') (List.mem_cons_self _ _)
        · exact ih (fun q hq => hd q (List.mem_cons_of_mem _ hq)) p h1

theorem nonneg_foldl_updateRegretStep (payoffs : List (String × ℚ)) (cp : ℚ)
    (as : List String) (r : List (String × ℚ)) (hr : ∀ p ∈ r, 0 ≤ p.2) :
    ∀ p ∈ as.foldl (updateRegretStep payoffs cp) r, 0 ≤ p.2 := by
  induction as generalizing r with
  | nil => exact hr
  | cons k rest ih =>
      rw [List.foldl_cons]
      exact ih _ (nonneg_dictSet _ _ _ hr (le_max_left 0 _))

-- Lemmas about the setdefault folds used at load time.

theorem foldl_dictSetdefault_of_isSome {α : Type} (v : α) (as : List String)
    (d : List (String × α)) (h : ∀ k ∈ as, (dictLookup d k).isSome) :
    as.foldl (fun acc k => dictSetdefault acc k v) d = d := by
  induction as with
  | nil => rfl
  | cons k rest ih =>
      rw [List.foldl_cons, dictSetdefault_of_isSome d k v
        (h k (List.mem_cons_self _ _))]
      exact ih fun k' hk' => h k' (List.mem_cons_of_mem _ hk')

theorem dictLookup_foldl_dictSetdefault_notMem {α : Type} (v : α)
    (as : List String) (d : List (String × α)) (a : String) (h : a ∉ as) :
    dictLookup (as.foldl (fun acc k => dictSetdefault acc k v) d) a =
      dictLookup d a := by
  induction as generalizing d with
  | nil => rfl
  | cons k rest ih =>
      have hk : a ≠ k := fun e => h (e ▸ List.mem_cons_self k rest)
      have hrest : a ∉ rest := fun e => h (List.mem_cons_of_mem k e)
      rw [List.foldl_cons, ih _ hrest, dictLookup_dictSetdefault_ne _ _ _ _ hk]

theorem dictLookup_foldl_dictSetdefault_mem {α : Type} (v : α)
    (as : List String) (d : List (String × α)) (a : String) (ha : a ∈ as) :
    dictLookup (as.foldl (fun acc k => dictSetdefault acc k v) d) a =
      some ((dictLookup d a).getD v) := by
  induction as generalizing d with
  | nil => cases ha
  | cons k rest ih =>
      by_cases hmem : a ∈ rest
      · rw [List.foldl_cons, ih _ hmem]
        by_cases hk : a = k
        · subst hk
          rw [dictLookup_dictSetdefault_self]
          simp
        · rw [dictLookup_dictSetdefault_ne _ _ _ _ hk]
      · have hk : a = k := by
          rcases List.mem_cons.mp ha with h1 | h1
          · exact h1
          · exact absurd h1 hmem
        subst hk
        rw [List.foldl_cons,
          dictLookup_foldl_dictSetdefault_notMem v rest _ a hmem,
          dictLookup_dictSetdefault_self]

-- Facts about normalization.

theorem sum_map_div (l : List ℝ) (c : ℝ) :
    (l.map (fun x => x / c)).sum = l.sum / c := by
  induction l with
  | nil => simp
  | cons x rest ih => simp [ih, add_div]

theorem normalizeW_spec (weights : List (String × ℝ)) (ε : ℝ) (hε : 0 < ε)
    (h : ∀ p ∈ weights, ε ≤ p.2) (hne : weights ≠ []) :
    (normalizeW weights).map Prod.fst = weights.map Prod.fst ∧
      (∀ p ∈ normalizeW weights, 0 < p.2) ∧
      ((normalizeW weights).map Prod.snd).sum = 1 := by
  have hpos : ∀ x ∈ weights.map Prod.snd, 0 < x := by
    intro x hx
    rcases List.mem_map.mp hx with ⟨p, hp, rfl⟩
    exact lt_of_lt_of_le hε (h p hp)
  have hne' : weights.map Prod.snd ≠ [] := by
    simpa using hne
  have htot : 0 < (weights.map Prod.snd).sum :=
    List.sum_pos _ hpos hne'
  have htot0 : (weights.map Prod.snd).sum ≠ 0 := ne_of_gt htot
  refine ⟨?_, ?_, ?_⟩
  · simp [normalizeW]
  · intro p hp
    simp only [normalizeW, htot0, if_neg, List.mem_map] at hp
    rcases hp with ⟨q, hq, rfl⟩
    exact div_pos (lt_of_lt_of_le hε (h q hq)) htot
  · have : ((normalizeW weights).map Prod.snd) =
        (weights.map Prod.snd).map (fun x => x / (weights.map Prod.snd).sum) := by
      simp [normalizeW, htot0, List.map_map]
    rw [this, sum_map_div, div_self htot0]

-- ==================================================================
-- Claims
-- ==================================================================

/-- C2: starting from any state whose regret values are all non-negative
(the freshly initialized state included), after any finite sequence of
`update_regret` / `penalize_failure` calls (interleaved with the
non-mutating `select_action` / `baseline_payoffs` calls) with any arguments,
every value in the regret state remains non-negative. -/
theorem regret_nonneg_invariant (actions : List String) (failurePenalty : ℚ)
    (calls : List EngineCall) (st : GameState)
    (h : ∀ p ∈ st.regret, 0 ≤ p.2) :
    ∀ p ∈ (runCalls actions failurePenalty calls st).regret, 0 ≤ p.2 := by
  induction calls generalizing st with
  | nil => exact h
  | cons c rest ih =>
      refine ih (stepCall actions failurePenalty st c) ?_
      cases c with
      | update p ch => exact nonneg_foldl_updateRegretStep _ _ _ _ h
      | penalize a => exact nonneg_dictSet _ _ _ h (le_max_left 0 _)
      | select p => exact h
      | baseline => exact h

theorem regret_nonneg_invariant_witness :
    (∀ p ∈ ([("reply", (0 : ℚ)), ("quote", 0)] : List (String × ℚ)), 0 ≤ p.2) ∧
    ∀ p ∈ (runCalls ["reply", "quote"] (7/20)
      [EngineCall.update [("reply", 2), ("quote", 1)] "quote",
       EngineCall.penalize "reply", EngineCall.baseline]
      ⟨[("reply", 0), ("quote", 0)], [("reply", 1), ("quote", 1)], 0⟩).regret,
      0 ≤ p.2 :=
  ⟨by decide, regret_nonneg_invariant _ _ _ _ (by decide)⟩

/-- C3: for every payoff mapping and chosen action, `update_regret` sets the
new regret of each configured action `a` to
`max(0, old_regret[a] + (payoffs[a] - payoffs[chosen_action]))`, payoffs
read with default `0.0`. -/
theorem updateRegret_formula (actions : List String)
    (payoffs : List (String × ℚ)) (chosen : String) (st : GameState)
    (a : String) (hnd : actions.Nodup) (ha : a ∈ actions) :
    dictLookup (updateRegret actions payoffs chosen st).regret a =
      some (max 0 ((dictLookup st.regret a).getD 0 +
        ((dictLookup payoffs a).getD 0 -
          (dictLookup payoffs chosen).getD 0))) :=
  dictLookup_foldl_updateRegretStep payoffs _ actions st.regret a hnd ha

theorem updateRegret_formula_witness :
    ((["reply", "quote"] : List String).Nodup ∧
      "reply" ∈ (["reply", "quote"] : List String)) ∧
    dictLookup (updateRegret ["reply", "quote"] [("reply", 2), ("quote", 1)]
      "quote" ⟨[("reply", 1/2), ("quote", 3)], [("reply", 1), ("quote", 1)], 0⟩).regret
      "reply" =
      some (max 0
        ((dictLookup ([("reply", 1/2), ("quote", 3)] : List (String × ℚ))
          "reply").getD 0 +
        ((dictLookup ([("reply", 2), ("quote", 1)] : List (String × ℚ))
          "reply").getD 0 -
         (dictLookup ([("reply", 2), ("quote", 1)] : List (String × ℚ))
          "quote").getD 0))) :=
  ⟨⟨by decide, by decide⟩,
    updateRegret_formula ["reply", "quote"] [("reply", 2), ("quote", 1)]
      "quote" ⟨[("reply", 1/2), ("quote", 3)], [("reply", 1), ("quote", 1)], 0⟩
      "reply" (by decide) (by decide)⟩

/-- C5: `penalize_failure(action)` sets `regret[action]` to
`max(0, regret[action] - failure_penalty)` and leaves every other action's
regret unchanged. -/
theorem penalizeFailure_spec (failurePenalty : ℚ) (action : String)
    (st : GameState) :
    dictLookup (penalizeFailure failurePenalty action st).regret action =
        some (max 0 ((dictLookup st.regret action).getD 0 - failurePenalty)) ∧
      ∀ a, a ≠ action →
        dictLookup (penalizeFailure failurePenalty action st).regret a =
          dictLookup st.regret a :=
  ⟨dictLookup_dictSet_self _ _ _,
    fun _ hne => dictLookup_dictSet_ne _ _ _ _ hne⟩

theorem penalizeFailure_spec_witness :
    (("quote" : String) ≠ "reply") ∧
    dictLookup (penalizeFailure (7/20) "reply"
        ⟨[("reply", 1/5), ("quote", 0)], [], 0⟩).regret "reply" =
      some (max 0
        ((dictLookup ([("reply", 1/5), ("quote", 0)] : List (String × ℚ))
          "reply").getD 0 - 7/20)) ∧
    dictLookup (penalizeFailure (7/20) "reply"
        ⟨[("reply", 1/5), ("quote", 0)], [], 0⟩).regret "quote" =
      dictLookup ([("reply", 1/5), ("quote", 0)] : List (String × ℚ)) "quote" :=
  ⟨by decide,
    (penalizeFailure_spec (7/20) "reply"
      ⟨[("reply", 1/5), ("quote", 0)], [], 0⟩).1,
    (penalizeFailure_spec (7/20) "reply"
      ⟨[("reply", 1/5), ("quote", 0)], [], 0⟩).2 "quote" (by decide)⟩

/-- C6: the `iterations` counter rises by exactly 1 on every `update_regret`
call, is untouched by `penalize_failure`, `select_action` and
`baseline_payoffs` (identity state transitions), and is therefore
monotonically non-decreasing over any call sequence. -/
theorem iterations_monotone (actions : List String) (failurePenalty : ℚ)
    (payoffs : List (String × ℚ)) (optPayoffs : Option (List (String × ℚ)))
    (chosen act : String) (st : GameState) (calls : List EngineCall) :
    (updateRegret actions payoffs chosen st).iterations = st.iterations + 1 ∧
    (penalizeFailure failurePenalty act st).iterations = st.iterations ∧
    stepCall actions failurePenalty st (EngineCall.select optPayoffs) = st ∧
    stepCall actions failurePenalty st EngineCall.baseline = st ∧
    st.iterations ≤ (runCalls actions failurePenalty calls st).iterations := by
  refine ⟨rfl, rfl, rfl, rfl, ?_⟩
  induction calls generalizing st with
  | nil => exact le_refl _
  | cons c rest ih =>
      refine le_trans ?_ (ih (stepCall actions failurePenalty st c))
      cases c with
      | update p ch => exact Nat.le_succ _
      | penalize a => exact le_refl _
      | select p => exact le_refl _
      | baseline => exact le_refl _

/-- C10: `update_regret` reads all payoffs with `.get(_, 0.0)`, so it never
raises: its result is unchanged when every configured action and the chosen
action missing from the payoff dict are explicitly bound to payoff `0.0`. -/
theorem updateRegret_missing_defaults (actions : List String)
    (payoffs : List (String × ℚ)) (chosen : String) (st : GameState) :
    updateRegret actions payoffs chosen st =
      updateRegret actions (totalizePayoffs payoffs (chosen :: actions))
        chosen st := by
  have hk : ∀ k ∈ chosen :: actions,
      (dictLookup (totalizePayoffs payoffs (chosen :: actions)) k).getD 0 =
        (dictLookup payoffs k).getD 0 := by
    intro k hkmem
    have h1 : dictLookup (totalizePayoffs payoffs (chosen :: actions)) k =
        some ((dictLookup payoffs k).getD 0) :=
      dictLookup_foldl_dictSetdefault_mem 0 (chosen :: actions) payoffs k hkmem
    rw [h1, Option.getD_some]
  have hchosen := hk chosen (List.mem_cons_self _ _)
  have hreg : actions.foldl
      (updateRegretStep payoffs ((dictLookup payoffs chosen).getD 0)) st.regret =
      actions.foldl (updateRegretStep (totalizePayoffs payoffs (chosen :: actions))
        ((dictLookup (totalizePayoffs payoffs (chosen :: actions)) chosen).getD 0))
        st.regret := by
    rw [hchosen]
    refine foldl_hcongr _ _ actions st.regret fun acc b hb => ?_
    unfold updateRegretStep
    rw [hk b (List.mem_cons_of_mem _ hb)]
  show GameState.mk
      (actions.foldl (updateRegretStep payoffs
        ((dictLookup payoffs chosen).getD 0)) st.regret)
      (dictSet st.strategyCounts chosen
        ((dictLookup st.strategyCounts chosen).getD 0 + 1))
      (st.iterations + 1) =
    GameState.mk
      (actions.foldl (updateRegretStep (totalizePayoffs payoffs (chosen :: actions))
        ((dictLookup (totalizePayoffs payoffs (chosen :: actions)) chosen).getD 0))
        st.regret)
      (dictSet st.strategyCounts chosen
        ((dictLookup st.strategyCounts chosen).getD 0 + 1))
      (st.iterations + 1)
  rw [hreg]

/-- C7: on every persist, the engine re-reads the full record through the
loader and overwrites only its own `"game_theory"` key before calling the
saver, so every sibling key of the loaded record reaches the saver
unchanged. -/
theorem persistState_preserves_siblings {σ : Type}
    (loaded : Option (History σ)) (st : GameState) (k : String)
    (hk : k ≠ "game_theory") :
    dictLookup (persistState loaded st) k = dictLookup (loaded.getD []) k :=
  dictLookup_dictSet_ne _ _ _ _ hk

theorem persistState_preserves_siblings_witness :
    (("replied_tweets" : String) ≠ "game_theory") ∧
    dictLookup (persistState (some [("replied_tweets", HVal.other (5 : ℕ))])
        ⟨[("reply", 0)], [("reply", 1)], 0⟩) "replied_tweets" =
      dictLookup ((some [("replied_tweets", HVal.other (5 : ℕ))] :
        Option (History ℕ)).getD []) "replied_tweets" :=
  ⟨by decide,
    persistState_preserves_siblings (some [("replied_tweets", HVal.other 5)])
      ⟨[("reply", 0)], [("reply", 1)], 0⟩ "replied_tweets" (by decide)⟩

/-- C8: reconstructing an engine from the record a previous instance
persisted yields exactly the regret, strategy-count and iteration values
that instance held at persist time (the store round trip is the identity on
engine state, provided the state carries an entry for every configured
action, as every constructed engine's state does). -/
theorem persist_load_roundTrip {σ : Type} (loaded0 : Option (History σ))
    (actions : List String) (st : GameState)
    (h : ∀ a ∈ actions, (dictLookup st.regret a).isSome ∧
      (dictLookup st.strategyCounts a).isSome) :
    (loadOrInit (some (persistState loaded0 st)) actions).1 = st := by
  obtain ⟨r, sc, it⟩ := st
  have hlook : dictLookup (persistState loaded0 ⟨r, sc, it⟩) "game_theory" =
      some (HVal.game (rawOfState ⟨r, sc, it⟩)) := dictLookup_dictSet_self _ _ _
  show loadOrInitState
    (gameOf (dictLookup (persistState loaded0 ⟨r, sc, it⟩) "game_theory"))
    actions = ⟨r, sc, it⟩
  rw [hlook]
  show GameState.mk
      (actions.foldl (fun d a => dictSetdefault d a 0) r)
      (actions.foldl (fun d a => dictSetdefault d a 1) sc)
      it = ⟨r, sc, it⟩
  rw [foldl_dictSetdefault_of_isSome 0 actions r (fun k hk => (h k hk).1),
    foldl_dictSetdefault_of_isSome 1 actions sc (fun k hk => (h k hk).2)]

theorem persist_load_roundTrip_witness :
    (∀ a ∈ (["reply", "quote"] : List String),
      (dictLookup ([("reply", (1 : ℚ)/2), ("quote", 0)] :
        List (String × ℚ)) a).isSome ∧
      (dictLookup ([("reply", (3 : ℚ)), ("quote", 1)] :
        List (String × ℚ)) a).isSome) ∧
    (loadOrInit (some (persistState (none : Option (History ℕ))
        ⟨[("reply", 1/2), ("quote", 0)], [("reply", 3), ("quote", 1)], 4⟩))
      ["reply", "quote"]).1 =
      ⟨[("reply", 1/2), ("quote", 0)], [("reply", 3), ("quote", 1)], 4⟩ :=
  ⟨by decide,
    persist_load_roundTrip (none : Option (History ℕ)) ["reply", "quote"]
      ⟨[("reply", 1/2), ("quote", 0)], [("reply", 3), ("quote", 1)], 4⟩
      (by decide)⟩

/-- C9: when the loaded record has no game-theory sub-record, or the
sub-record misses entries for some configured actions, construction
bootstraps each configured action's regret to the stored value or `0`, its
strategy count to the stored value or `1`, the iteration counter to the
stored value or `0` (so existing entries are preserved and missing ones get
the defaults), and hands the record holding the resulting state to the
saver under the `"game_theory"` key. -/
theorem loadOrInit_bootstrap {σ : Type} (loaded : Option (History σ))
    (actions : List String) (a : String) (ha : a ∈ actions) :
    dictLookup (loadOrInit loaded actions).1.regret a =
      some ((dictLookup (((gameOf (dictLookup (loaded.getD [])
        "game_theory")).getD emptyRaw).regret.getD []) a).getD 0) ∧
    dictLookup (loadOrInit loaded actions).1.strategyCounts a =
      some ((dictLookup (((gameOf (dictLookup (loaded.getD [])
        "game_theory")).getD emptyRaw).strategyCounts.getD []) a).getD 1) ∧
    (loadOrInit loaded actions).1.iterations =
      ((gameOf (dictLookup (loaded.getD [])
        "game_theory")).getD emptyRaw).iterations.getD 0 ∧
    dictLookup (loadOrInit loaded actions).2 "game_theory" =
      some (HVal.game (rawOfState (loadOrInit loaded actions).1)) :=
  ⟨dictLookup_foldl_dictSetdefault_mem 0 actions _ a ha,
    dictLookup_foldl_dictSetdefault_mem 1 actions _ a ha,
    rfl,
    dictLookup_dictSet_self _ _ _⟩

theorem loadOrInit_bootstrap_witness :
    ("reply" ∈ (["reply", "quote"] : List String)) ∧
    (dictLookup (loadOrInit (none : Option (History ℕ))
        ["reply", "quote"]).1.regret "reply" =
      some ((dictLookup (((gameOf (dictLookup
        ((none : Option (History ℕ)).getD [])
        "game_theory")).getD emptyRaw).regret.getD []) "reply").getD 0) ∧
    dictLookup (loadOrInit (none : Option (History ℕ))
        ["reply", "quote"]).1.strategyCounts "reply" =
      some ((dictLookup (((gameOf (dictLookup
        ((none : Option (History ℕ)).getD [])
        "game_theory")).getD emptyRaw).strategyCounts.getD []) "reply").getD 1) ∧
    (loadOrInit (none : Option (History ℕ)) ["reply", "quote"]).1.iterations =
      ((gameOf (dictLookup ((none : Option (History ℕ)).getD [])
        "game_theory")).getD emptyRaw).iterations.getD 0 ∧
    dictLookup (loadOrInit (none : Option (History ℕ))
        ["reply", "quote"]).2 "game_theory" =
      some (HVal.game (rawOfState (loadOrInit (none : Option (History ℕ))
        ["reply", "quote"]).1))) :=
  ⟨by decide,
    loadOrInit_bootstrap (none : Option (History ℕ)) ["reply", "quote"]
      "reply" (by decide)⟩

/-- C1: for every non-empty configured action set, every regret state and
every optional payoff mapping (missing or extra keys included),
`mixed_strategy` returns a mapping whose keys are exactly the configured
actions, whose values are all strictly positive, and whose values sum to
exactly 1 (the `ℝ` model of the floating-point tolerance). -/
theorem mixedStrategy_distribution (actions : List String)
    (temperature mixingFactor : ℝ) (payoffs : Option (List (String × ℚ)))
    (st : GameState) (hne : actions ≠ []) :
    (mixedStrategy actions temperature mixingFactor payoffs st).map
        Prod.fst = actions ∧
      (∀ p ∈ mixedStrategy actions temperature mixingFactor payoffs st,
        0 < p.2) ∧
      ((mixedStrategy actions temperature mixingFactor payoffs st).map
        Prod.snd).sum = 1 := by
  set weights := actions.map (fun a =>
    (a, max (mixingFactor *
        (((dictLookup (regretPolicy actions st) a).getD 0 : ℚ) : ℝ)
      + (1 - mixingFactor) * (dictLookup (softmaxPolicy actions temperature
          (effectivePayoffs actions payoffs)) a).getD 0)
      (1/1000000))) with hw
  have hmix : mixedStrategy actions temperature mixingFactor payoffs st =
      normalizeW weights := rfl
  have hε : (0 : ℝ) < 1/1000000 := by norm_num
  have hbound : ∀ p ∈ weights, (1 : ℝ)/1000000 ≤ p.2 := by
    intro p hp
    rcases List.mem_map.mp hp with ⟨a, ha, rfl⟩
    exact le_max_right _ _
  have hwne : weights ≠ [] := by
    rw [hw]
    intro h0
    exact hne (List.map_eq_nil_iff.mp h0)
  obtain ⟨h1, h2, h3⟩ := normalizeW_spec weights (1/1000000) hε hbound hwne
  refine ⟨?_, ?_, ?_⟩
  · rw [hmix, h1, hw, List.map_map]
    exact List.map_id actions
  · intro p hp
    exact h2 p (by rwa [hmix] at hp)
  · rw [hmix]
    exact h3

theorem mixedStrategy_distribution_witness :
    ((["reply", "quote"] : List String) ≠ []) ∧
    ((mixedStrategy ["reply", "quote"] (6/5) (11/20) (some [("reply", 2)])
        ⟨[("reply", 1), ("quote", 0)], [("reply", 1), ("quote", 1)], 0⟩).map
        Prod.fst = ["reply", "quote"] ∧
      (∀ p ∈ mixedStrategy ["reply", "quote"] (6/5) (11/20)
        (some [("reply", 2)])
        ⟨[("reply", 1), ("quote", 0)], [("reply", 1), ("quote", 1)], 0⟩,
        0 < p.2) ∧
      ((mixedStrategy ["reply", "quote"] (6/5) (11/20) (some [("reply", 2)])
        ⟨[("reply", 1), ("quote", 0)], [("reply", 1), ("quote", 1)], 0⟩).map
        Prod.snd).sum = 1) :=
  ⟨by decide,
    mixedStrategy_distribution ["reply", "quote"] (6/5) (11/20)
      (some [("reply", 2)])
      ⟨[("reply", 1), ("quote", 0)], [("reply", 1), ("quote", 1)], 0⟩
      (by decide)⟩

/-- C4 as stated is false: constructing the engine with an empty action set
does not raise; `actions or ("reply", "quote")` treats the empty (falsy)
sequence like `None`, so construction succeeds and the engine is usable
with the default actions and a fully initialized state. -/
theorem mkEngine_empty_actions_counterexample :
    (mkEngine (some []) (none : Option (History ℕ))).actions =
        ["reply", "quote"] ∧
      (mkEngine (some []) (none : Option (History ℕ))).actions ≠ [] ∧
      (mkEngine (some []) (none : Option (History ℕ))).state =
        ⟨[("reply", 0), ("quote", 0)], [("reply", 1), ("quote", 1)], 0⟩ :=
  ⟨by decide, by decide, by decide⟩

/-- C4 amended: constructing the engine with an empty action set is not a
fatal error; the empty (falsy) action sequence is replaced by the default
action set `("reply", "quote")`, so construction produces a usable engine
with a non-empty action list (no fail-fast validation exists). -/
theorem mkEngine_empty_actions_defaults {σ : Type}
    (loaded : Option (History σ)) :
    (mkEngine (some []) loaded).actions = ["reply", "quote"] ∧
      (mkEngine (some []) loaded).actions ≠ [] := by
  constructor
  · show initActions (some []) = ["reply", "quote"]
    decide
  · show initActions (some []) ≠ []
    decide

end ResponseBot
